import Mathlib

/-!
Verification of the bank-statement text interpretation engine of the
Personal-Finance-Assistant repository (`TransactionHistoryProcessor` in
`backend/server.js`).

The JavaScript code is shallowly embedded: strings are `List Char`, the
regular expressions of `this.patterns` are embedded as explicit matcher
functions (the amount patterns carry the `g` flag, so their persistent
`lastIndex` is threaded through an explicit `RState`), JavaScript numbers
arising from `parseFloat` on decimal numerals are `ℚ`, and `Date`
construction/`toISOString` is modelled at UTC.
-/

/-- ASCII digit test (`\d` for the embedded regexes). -/
def isDigitC (c : Char) : Bool := 48 ≤ c.toNat && c.toNat ≤ 57

/-- JavaScript `\s` restricted to the ASCII whitespace forms that can occur
in statement text (space, tab, LF, CR, VT, FF). -/
def isWsC (c : Char) : Bool :=
  c = ' ' || c = '\t' || c = '\n' || c = '\r' || c.toNat = 11 || c.toNat = 12

/-- `String.prototype.toUpperCase` on ASCII letters. -/
def upperC (c : Char) : Char :=
  if 97 ≤ c.toNat && c.toNat ≤ 122 then Char.ofNat (c.toNat - 32) else c

/-- `String.prototype.toLowerCase` on ASCII letters. -/
def lowerC (c : Char) : Char :=
  if 65 ≤ c.toNat && c.toNat ≤ 90 then Char.ofNat (c.toNat + 32) else c

def upperL (cs : List Char) : List Char := cs.map upperC

/-- `pre` is a prefix of `l` (used for substring scans). -/
def startsWithL : List Char → List Char → Bool
  | [], _ => true
  | _ :: _, [] => false
  | a :: pre, b :: l => a = b && startsWithL pre l

/-- `String.prototype.includes`: `pat` occurs somewhere in `hay`. -/
def containsL (hay pat : List Char) : Bool :=
  match hay with
  | [] => pat.isEmpty
  | _ :: t => startsWithL pat hay || containsL t pat

def lastIndexOfAux (pat : List Char) : List Char → Nat → Option Nat → Option Nat
  | hay, i, best =>
    let best1 := if startsWithL pat hay then some i else best
    match hay with
    | [] => best1
    | _ :: t => lastIndexOfAux pat t (i + 1) best1

/-- `String.prototype.lastIndexOf`: index of the last occurrence, `-1` if none. -/
def lastIndexOfL (hay pat : List Char) : Int :=
  match lastIndexOfAux pat hay 0 none with
  | some i => (i : Int)
  | none => -1

/-- `String.prototype.trim`. -/
def trimL (cs : List Char) : List Char :=
  ((cs.dropWhile isWsC).reverse.dropWhile isWsC).reverse

def splitOnAux (sep : Char) : List Char → List Char → List (List Char)
  | [], cur => [cur.reverse]
  | c :: t, cur =>
    if c = sep then cur.reverse :: splitOnAux sep t []
    else splitOnAux sep t (c :: cur)

/-- `String.prototype.split` on a single separator character. -/
def splitOnC (sep : Char) (cs : List Char) : List (List Char) :=
  splitOnAux sep cs []

/-- Greedy run of digits (the `\d+`/`\d*` pieces of the embedded regexes). -/
def spanDigits : List Char → List Char × List Char
  | [] => ([], [])
  | c :: t =>
    if isDigitC c then
      let r := spanDigits t
      (c :: r.1, r.2)
    else ([], c :: t)

def natOfDigits (cs : List Char) : Nat :=
  cs.foldl (fun n c => n * 10 + (c.toNat - 48)) 0

/-- `parseFloat` on the numerals produced by the amount regex groups
(a digit run, optionally followed by `.` and a digit run; any further
characters are ignored, as `parseFloat` does). -/
def parseFloatQ (cs : List Char) : ℚ :=
  let ip := spanDigits cs
  match ip.2 with
  | p :: r2 =>
    if p = '.' then
      let fp := spanDigits r2
      (natOfDigits ip.1 : ℚ) + (natOfDigits fp.1 : ℚ) / (10 : ℚ) ^ fp.1.length
    else (natOfDigits ip.1 : ℚ)
  | [] => (natOfDigits ip.1 : ℚ)

def digitsOfNatAux : Nat → Nat → List Char
  | 0, _ => []
  | fuel + 1, n =>
    if n < 10 then [Char.ofNat (48 + n)]
    else digitsOfNatAux fuel (n / 10) ++ [Char.ofNat (48 + n % 10)]

def digitsOfNat (n : Nat) : List Char := digitsOfNatAux (n + 1) n

def padLeftZeros (ds : List Char) (k : Nat) : List Char :=
  List.replicate (k - ds.length) '0' ++ ds

def decExpAux : Nat → Nat → Nat → Nat
  | 0, _, k => k
  | fuel + 1, den, k => if (10 ^ k) % den = 0 then k else decExpAux fuel den (k + 1)

/-- Smallest `k` with `den ∣ 10 ^ k` (denominators here always divide a
power of ten, coming from decimal numerals). -/
def decExp (den : Nat) : Nat := decExpAux 31 den 0

/-- `Number.prototype.toString` for the decimal values arising in this
pipeline: shortest decimal form, no trailing zeros, no trailing dot. -/
def numToStringL (q : ℚ) : List Char :=
  let sign : List Char := if q < 0 then ['-'] else []
  let a : ℚ := if q < 0 then -q else q
  let k := decExp a.den
  let n : Nat := a.num.natAbs * 10 ^ k / a.den
  if k = 0 then sign ++ digitsOfNat n
  else sign ++ digitsOfNat (n / 10 ^ k) ++ '.' :: padLeftZeros (digitsOfNat (n % 10 ^ k)) k

/-- Civil date to days since the Unix epoch (Hinnant's algorithm),
month in 1..12. -/
def daysFromCivil (y m d : Int) : Int :=
  let y2 := if m ≤ 2 then y - 1 else y
  let era := y2.fdiv 400
  let yoe := y2 - era * 400
  let mp := if m > 2 then m - 3 else m + 9
  let doy := (153 * mp + 2).fdiv 5 + d - 1
  let doe := yoe * 365 + yoe.fdiv 4 - yoe.fdiv 100 + doy
  era * 146097 + doe - 719468

/-- Days since the Unix epoch back to a civil date (year, month, day). -/
def civilFromDays (z0 : Int) : Int × Int × Int :=
  let z := z0 + 719468
  let era := z.fdiv 146097
  let doe := z - era * 146097
  let yoe := (doe - doe.fdiv 1460 + doe.fdiv 36524 - doe.fdiv 146096).fdiv 365
  let y := yoe + era * 400
  let doy := doe - (365 * yoe + yoe.fdiv 4 - yoe.fdiv 100)
  let mp := (5 * doy + 2).fdiv 153
  let d := doy - (153 * mp + 2).fdiv 5 + 1
  let m := if mp < 10 then mp + 3 else mp - 9
  (if m ≤ 2 then y + 1 else y, m, d)

def pad2 (n : Nat) : List Char := padLeftZeros (digitsOfNat n) 2

def pad4 (n : Nat) : List Char := padLeftZeros (digitsOfNat n) 4

/-- `new Date(y, mIdx, d).toISOString().split('T')[0]`, modelled at UTC:
years 0..99 map to 1900..1999, and out-of-range month index or day roll
over into adjacent months/years instead of failing. -/
def jsDateISO (y mIdx d : Int) : List Char :=
  let yFull := if 0 ≤ y && y ≤ 99 then 1900 + y else y
  let yAdj := yFull + mIdx.fdiv 12
  let m := mIdx.emod 12
  let epochDay := daysFromCivil yAdj (m + 1) 1 + (d - 1)
  let c := civilFromDays epochDay
  pad4 c.1.natAbs ++ '-' :: pad2 c.2.1.natAbs ++ '-' :: pad2 c.2.2.natAbs

/-- `Number()` coercion of a split component as used in the `Date`
constructor arguments: empty/whitespace is 0, a digit run is its value,
anything else is NaN (modelled as `none`, which makes the resulting date
invalid and the normalizer return `null`). -/
def jsNumOfPart (cs : List Char) : Option Int :=
  let t := trimL cs
  if t.isEmpty then some 0
  else if t.all isDigitC then some (natOfDigits t : Int)
  else none

/-- `normalizeDate` (server.js 700-734): slash tokens are taken as
month/day/year, dash tokens as year-month-day when the first component has
four digits and day-month-year otherwise; the constructed `Date` is
returned in ISO form, and `null` only results when the token fits no
recognized shape or a component coerces to NaN. -/
def normalizeDate (cs : List Char) : Option (List Char) :=
  if containsL cs ['/'] then
    match splitOnC '/' cs with
    | [p0, p1, p2] =>
      match jsNumOfPart p2, jsNumOfPart p0, jsNumOfPart p1 with
      | some y, some m, some d => some (jsDateISO y (m - 1) d)
      | _, _, _ => none
    | _ => none
  else if containsL cs ['-'] then
    match splitOnC '-' cs with
    | [p0, p1, p2] =>
      if p0.length = 4 then
        match jsNumOfPart p0, jsNumOfPart p1, jsNumOfPart p2 with
        | some y, some m, some d => some (jsDateISO y (m - 1) d)
        | _, _, _ => none
      else
        match jsNumOfPart p2, jsNumOfPart p1, jsNumOfPart p0 with
        | some y, some m, some d => some (jsDateISO y (m - 1) d)
        | _, _, _ => none
    | _ => none
  else none

/-- `normalizeDate` applied to the (possibly absent) second element of a
global-flag match array: `normalizeDate(undefined)` throws inside its
`try` block and therefore returns `null`. -/
def normalizeDateU : Option (List Char) → Option (List Char)
  | none => none
  | some t => normalizeDate t

/-- The capture group `\d+,?\d*\.?\d*` of the amount patterns, matched
greedily at the head of `cs`; returns the group text and the rest.
Each optional piece starts with a character the previous piece cannot
consume, so greedy matching without backtracking coincides with the
regex engine here. -/
def numGroup (cs : List Char) : Option (List Char × List Char) :=
  match spanDigits cs with
  | ([], _) => none
  | (d1, r1) =>
    let s1 : List Char × List Char :=
      match r1 with
      | r0 :: rr => if r0 = ',' then ([','], rr) else ([], r1)
      | [] => ([], r1)
    let s2 := spanDigits s1.2
    let s3 : List Char × List Char :=
      match s2.2 with
      | p0 :: pr => if p0 = '.' then (['.'], pr) else ([], s2.2)
      | [] => ([], s2.2)
    let s4 := spanDigits s3.2
    some (d1 ++ s1.1 ++ s2.1 ++ s3.1 ++ s4.1, s4.2)

/-- `/\$(\d+,?\d*\.?\d*)/g` tried at one position: (match length, group). -/
def matchAmt0 : List Char → Option (Nat × List Char)
  | '$' :: r =>
    match numGroup r with
    | some (g, _) => some (1 + g.length, g)
    | none => none
  | _ => none

/-- `/(\d+,?\d*\.?\d*)\s*CR/g` tried at one position. -/
def matchAmtCR (cs : List Char) : Option (Nat × List Char) :=
  match numGroup cs with
  | none => none
  | some (g, r) =>
    let w := r.takeWhile isWsC
    if startsWithL ['C', 'R'] (r.drop w.length) then
      some (g.length + w.length + 2, g)
    else none

/-- `/(\d+,?\d*\.?\d*)\s*DR/g` tried at one position. -/
def matchAmtDR (cs : List Char) : Option (Nat × List Char) :=
  match numGroup cs with
  | none => none
  | some (g, r) =>
    let w := r.takeWhile isWsC
    if startsWithL ['D', 'R'] (r.drop w.length) then
      some (g.length + w.length + 2, g)
    else none

/-- The negative-currency amount pattern (g flag): a literal minus, an
optional currency sign, then the numeral group, tried at one position. -/
def matchAmtNeg : List Char → Option (Nat × List Char)
  | '-' :: r =>
    match r with
    | '$' :: r2 =>
      (match numGroup r2 with
       | some (g, _) => some (2 + g.length, g)
       | none => none)
    | _ =>
      (match numGroup r with
       | some (g, _) => some (1 + g.length, g)
       | none => none)
  | _ => none

/-- The trailing-minus amount pattern (g flag): the numeral group followed
by a literal minus, tried at one position. -/
def matchAmtTrail (cs : List Char) : Option (Nat × List Char) :=
  match numGroup cs with
  | some (g, '-' :: _) => some (g.length + 1, g)
  | _ => none

/-- Scan for the first match of `m` at or after position `j`
(fuel-bounded scan over the remaining positions). -/
def findFromAux (m : List Char → Option (Nat × List Char)) (cs : List Char) :
    Nat → Nat → Option (Nat × Nat × List Char)
  | _, 0 => none
  | j, fuel + 1 =>
    match m (cs.drop j) with
    | some r => some (j, r.1, r.2)
    | none => findFromAux m cs (j + 1) fuel

def findFrom (m : List Char → Option (Nat × List Char)) (cs : List Char) (i : Nat) :
    Option (Nat × Nat × List Char) :=
  findFromAux m cs i (cs.length + 1 - i)

/-- `RegExp.prototype.test` for a `g`-flagged pattern: searches from the
pattern's persistent `lastIndex`; success advances `lastIndex` past the
match, failure resets it to 0. -/
def regexTestG (m : List Char → Option (Nat × List Char)) (cs : List Char) (li : Nat) :
    Bool × Nat :=
  match findFrom m cs li with
  | some (j, len, _) => (true, j + len)
  | none => (false, 0)

def allMatchesAux (m : List Char → Option (Nat × List Char)) (cs : List Char) :
    Nat → Nat → List (List Char)
  | _, 0 => []
  | j, fuel + 1 =>
    match findFrom m cs j with
    | some (s, len, g) => g :: allMatchesAux m cs (s + len) fuel
    | none => []

/-- `String.prototype.matchAll`: capture groups of all matches, starting
from the original pattern's `lastIndex` (which `matchAll` reads but does
not mutate; the embedded patterns never match the empty string). -/
def allMatchesFrom (m : List Char → Option (Nat × List Char)) (cs : List Char)
    (li : Nat) : List (List Char) :=
  allMatchesAux m cs li (cs.length + 1)

/-- The persistent `lastIndex` values of the five `g`-flagged amount
patterns of `TransactionHistoryProcessor.patterns.amount`; the date
patterns are only used through `String.match`, which resets `lastIndex`,
so they carry no observable state. -/
structure RState where
  i0 : Nat
  i1 : Nat
  i2 : Nat
  i3 : Nat
  i4 : Nat
deriving DecidableEq, Repr

/-- The module-level processor is constructed once, with all `lastIndex`
values 0. -/
def initState : RState := ⟨0, 0, 0, 0, 0⟩

def digitsExact : Nat → List Char → Option (List Char × List Char)
  | 0, cs => some ([], cs)
  | n + 1, c :: cs =>
    if isDigitC c then
      match digitsExact n cs with
      | some (d, r) => some (c :: d, r)
      | none => none
    else none
  | _ + 1, [] => none

def dateSepCombo (sep : Char) (n1 n2 : Nat) (cs : List Char) :
    Option (Nat × List Char) :=
  match digitsExact n1 cs with
  | some (d1, s1 :: r1) =>
    if s1 = sep then
      match digitsExact n2 r1 with
      | some (d2, s2 :: r2) =>
        if s2 = sep then
          match digitsExact 4 r2 with
          | some (d3, _) => some (n1 + n2 + 6, d1 ++ s1 :: d2 ++ s2 :: d3)
          | none => none
        else none
      | _ => none
    else none
  | _ => none

/-- `/(\d{1,2}\/\d{1,2}\/\d{4})/g` tried at one position; the bounded
repetitions backtrack from two digits to one. -/
def matchDateSlash (cs : List Char) : Option (Nat × List Char) :=
  (dateSepCombo '/' 2 2 cs) <|> (dateSepCombo '/' 2 1 cs) <|>
    (dateSepCombo '/' 1 2 cs) <|> (dateSepCombo '/' 1 1 cs)

/-- `/(\d{1,2}-\d{1,2}-\d{4})/g` tried at one position. -/
def matchDateDash (cs : List Char) : Option (Nat × List Char) :=
  (dateSepCombo '-' 2 2 cs) <|> (dateSepCombo '-' 2 1 cs) <|>
    (dateSepCombo '-' 1 2 cs) <|> (dateSepCombo '-' 1 1 cs)

def dateIsoCombo (n2 n3 : Nat) (cs : List Char) : Option (Nat × List Char) :=
  match digitsExact 4 cs with
  | some (d1, '-' :: r1) =>
    (match digitsExact n2 r1 with
     | some (d2, '-' :: r2) =>
       (match digitsExact n3 r2 with
        | some (d3, _) => some (6 + n2 + n3, d1 ++ '-' :: d2 ++ '-' :: d3)
        | none => none)
     | _ => none)
  | _ => none

/-- `/(\d{4}-\d{1,2}-\d{1,2})/g` tried at one position. -/
def matchDateIso (cs : List Char) : Option (Nat × List Char) :=
  (dateIsoCombo 2 2 cs) <|> (dateIsoCombo 2 1 cs) <|>
    (dateIsoCombo 1 2 cs) <|> (dateIsoCombo 1 1 cs)

/-- `String.prototype.match` with a `g`-flagged pattern: the array of all
matched substrings, searched from the start (`match` resets `lastIndex`
and leaves it 0; capture groups are NOT returned). -/
def jsMatchList (m : List Char → Option (Nat × List Char)) (cs : List Char) :
    List (List Char) :=
  allMatchesFrom m cs 0

/-- The date extraction loop of `parseTransactionLine` (server.js
576-582): the first date pattern whose `match` is non-null wins and the
loop breaks, feeding `dateMatch[1]` — the SECOND matched substring, since
the global flag drops capture groups — to `normalizeDate`. -/
def extractDate (cs : List Char) : Option (List Char) :=
  let t1 := jsMatchList matchDateSlash cs
  if !t1.isEmpty then normalizeDateU (t1.get? 1)
  else
    let t2 := jsMatchList matchDateDash cs
    if !t2.isEmpty then normalizeDateU (t2.get? 1)
    else
      let t3 := jsMatchList matchDateIso cs
      if !t3.isEmpty then normalizeDateU (t3.get? 1)
      else none

def headerKeywords : List (List Char) :=
  (["DATE", "DESCRIPTION", "AMOUNT", "BALANCE", "TRANSACTION",
    "ACCOUNT", "STATEMENT", "PERIOD", "PAGE", "SUMMARY"]).map String.data

/-- `isHeaderLine` (server.js 640-649): a header keyword occurs in the
upper-cased line AND `patterns.amount.some(p => p.test(line))` is false.
The `&&` short-circuits, `some` stops at the first successful test, and
each `test` call on a `g`-flagged pattern reads and writes that pattern's
persistent `lastIndex` — the only mutable state of the processor. -/
def isHeaderLineSt (s : RState) (cs : List Char) : RState × Bool :=
  let upper := upperL cs
  if headerKeywords.any (fun k => containsL upper k) then
    let t0 := regexTestG matchAmt0 cs s.i0
    if t0.1 then ({ s with i0 := t0.2 }, false)
    else
      let t1 := regexTestG matchAmtCR cs s.i1
      if t1.1 then ({ s with i0 := t0.2, i1 := t1.2 }, false)
      else
        let t2 := regexTestG matchAmtDR cs s.i2
        if t2.1 then ({ s with i0 := t0.2, i1 := t1.2, i2 := t2.2 }, false)
        else
          let t3 := regexTestG matchAmtNeg cs s.i3
          if t3.1 then
            ({ s with i0 := t0.2, i1 := t1.2, i2 := t2.2, i3 := t3.2 }, false)
          else
            let t4 := regexTestG matchAmtTrail cs s.i4
            ({ s with i0 := t0.2, i1 := t1.2, i2 := t2.2, i3 := t3.2, i4 := t4.2 },
             !t4.1)
  else (s, false)

/-- `(?:balance|bal|total)[:\s]*\$?\d+` (case-insensitive) tried at one
position. -/
def balanceKwAt (u : List Char) : Bool :=
  let kw : Option (List Char) :=
    if startsWithL ("BALANCE").data u then some (u.drop 7)
    else if startsWithL ("BAL").data u then some (u.drop 3)
    else if startsWithL ("TOTAL").data u then some (u.drop 5)
    else none
  match kw with
  | none => false
  | some r =>
    let r2 := r.dropWhile (fun c => c = ':' || isWsC c)
    match r2 with
    | '$' :: c :: _ => isDigitC c
    | c :: _ => isDigitC c
    | [] => false

def scanAny (p : List Char → Bool) : List Char → Bool
  | [] => p []
  | c :: t => p (c :: t) || scanAny p t

/-- `isBalanceLine` (server.js 651-654). -/
def isBalanceLine (cs : List Char) : Bool :=
  scanAny balanceKwAt (upperL cs) &&
    !(containsL (upperL cs) ("AVAILABLE").data ||
      containsL (upperL cs) ("PENDING").data)

/-- Resolution of the last amount match: group of the last match, comma
removal, `parseFloat`, and the debit/credit context signals (the
`else if` means an established debit signal suppresses the credit one);
`patMinus` records whether the matched pattern's source text contains a
literal minus. -/
def amtOf (cs : List Char) (groups : List (List Char)) (patMinus : Bool) :
    Option (ℚ × Bool × Bool) :=
  match groups.getLast? with
  | none => none
  | some g =>
    let amt := parseFloatQ (g.filter (fun c => c != ','))
    let isDebit := containsL cs ("DR").data || containsL cs ("-").data || patMinus
    let isCredit :=
      !isDebit && (containsL cs ("CR").data || containsL cs ("DEPOSIT").data)
    some (amt, isDebit, isCredit)

/-- The amount extraction loop of `parseTransactionLine` (server.js
588-607): patterns are tried in order from their persistent `lastIndex`
(`matchAll` reads it without mutating), the first pattern with at least
one match wins, and the last of its matches is taken. Only the last two
patterns' source texts contain a literal minus. -/
def extractAmount (s : RState) (cs : List Char) : Option (ℚ × Bool × Bool) :=
  let m0 := allMatchesFrom matchAmt0 cs s.i0
  if !m0.isEmpty then amtOf cs m0 false
  else
    let m1 := allMatchesFrom matchAmtCR cs s.i1
    if !m1.isEmpty then amtOf cs m1 false
    else
      let m2 := allMatchesFrom matchAmtDR cs s.i2
      if !m2.isEmpty then amtOf cs m2 false
      else
        let m3 := allMatchesFrom matchAmtNeg cs s.i3
        if !m3.isEmpty then amtOf cs m3 true
        else
          let m4 := allMatchesFrom matchAmtTrail cs s.i4
          if !m4.isEmpty then amtOf cs m4 true
          else none

/-- `description.replace(^\d+\s*, '')`: a leading digit run and the
whitespace after it are removed. -/
def stripLeadingDigits (cs : List Char) : List Char :=
  match cs with
  | c :: _ => if isDigitC c then (cs.dropWhile isDigitC).dropWhile isWsC else cs
  | [] => []

def collapseWsAux : List Char → Bool → List Char
  | [], _ => []
  | c :: t, prevWs =>
    if isWsC c then
      if prevWs then collapseWsAux t true else ' ' :: collapseWsAux t true
    else c :: collapseWsAux t false

/-- `description.replace(\s+, ' ')` globally: whitespace runs collapse to
one space. -/
def collapseWs (cs : List Char) : List Char := collapseWsAux cs false

/-- `description.replace(#\d+, '')` globally: a hash sign followed by at
least one digit is removed together with the digits. -/
def removeRefsAux : Bool → List Char → List Char
  | _, [] => []
  | inRef, c :: t =>
    if inRef && isDigitC c then removeRefsAux true t
    else if c = '#' then
      match t with
      | d :: _ => if isDigitC d then removeRefsAux true t else '#' :: removeRefsAux false t
      | [] => ['#']
    else c :: removeRefsAux false t

def capFirst : List Char → List Char
  | [] => []
  | c :: t => upperC c :: t.map lowerC

/-- `cleanupDescription` (server.js 666-681). -/
def cleanupDescription (cs : List Char) : List Char :=
  capFirst (trimL (removeRefsAux false
    ((collapseWs (stripLeadingDigits cs)).filter (fun c => c != '*'))))

/-- JavaScript truthiness of the optional amount (`null`, `NaN` and `0`
are falsy; the numerals parsed here are never NaN). -/
def truthyQ : Option ℚ → Bool
  | none => false
  | some a => a != 0

/-- JavaScript truthiness of an optional string (`null` and `''` are
falsy). -/
def truthyS : Option (List Char) → Bool
  | none => false
  | some s => !s.isEmpty

/-- `String.prototype.replace` with a plain string pattern and empty
replacement: the first occurrence is removed. -/
def removeFirstL (pat : List Char) : List Char → List Char
  | [] => if startsWithL pat [] then ([] : List Char).drop pat.length else []
  | c :: t =>
    if startsWithL pat (c :: t) then (c :: t).drop pat.length
    else c :: removeFirstL pat t

/-- The description step of `parseTransactionLine` (server.js 609-621):
only run when the amount is truthy; the prefix of the line before the
LAST occurrence of `amount.toString()` is taken only when that index is
strictly positive, the (normalized) date string is removed from it if
present, and the remainder is cleaned. -/
def extractDesc (cs : List Char) (date : Option (List Char)) (amt : Option ℚ) :
    Option (List Char) :=
  if truthyQ amt then
    match amt with
    | some a =>
      let aStr := numToStringL a
      let idx := lastIndexOfL cs aStr
      if 0 < idx then
        let d0 := trimL (cs.take idx.toNat)
        let d1 :=
          match date with
          | some ds => trimL (removeFirstL ds d0)
          | none => d0
        some (cleanupDescription d1)
      else none
    | none => none
  else none

inductive TType where
  | income
  | expense
deriving DecidableEq, Repr

/-- A candidate transaction record as built by `parseTransactionLine`;
fields start as `null` (`none`) and are filled in as extraction
progresses. -/
structure Transaction where
  date : Option (List Char)
  description : Option (List Char)
  amount : Option ℚ
  type : Option TType
  category : Option (List Char)
  raw_line : List Char
deriving DecidableEq, Repr

def incomeKeywords : List (List Char) :=
  (["DEPOSIT", "PAYROLL", "SALARY", "WAGE", "INCOME", "REFUND",
    "DIVIDEND", "INTEREST", "BONUS", "COMMISSION"]).map String.data

/-- `isIncomeDescription` (server.js 656-664). -/
def isIncomeDescription (desc : List Char) : Bool :=
  incomeKeywords.any (fun k => containsL (upperL desc) k)

/-- `this.categoryMappings` in its literal (insertion) order, which is
the iteration order of `Object.entries` for string keys. -/
def categoryMappings : List (List Char × List Char) :=
  ([("ATM", "Cash"), ("DEPOSIT", "Income"), ("PAYROLL", "Salary"),
    ("GROCERY", "Food & Dining"), ("RESTAURANT", "Food & Dining"),
    ("GAS", "Transportation"), ("FUEL", "Transportation"),
    ("PHARMACY", "Healthcare"), ("MEDICAL", "Healthcare"),
    ("RENT", "Bills & Utilities"), ("ELECTRIC", "Bills & Utilities"),
    ("UTILITY", "Bills & Utilities"), ("AMAZON", "Shopping"),
    ("TARGET", "Shopping"), ("WALMART", "Shopping"),
    ("NETFLIX", "Entertainment"), ("SPOTIFY", "Entertainment")]).map
    (fun p => (p.1.data, p.2.data))

/-- `suggestCategory` (server.js 683-698): first keyword of the mapping
that occurs in the upper-cased description wins; then the
transfer/payment fallback, then "Other". -/
def suggestCategory (desc : List Char) : List Char :=
  let u := upperL desc
  match categoryMappings.find? (fun p => containsL u p.1) with
  | some p => p.2
  | none =>
    if containsL u ("TRANSFER").data || containsL u ("PAYMENT").data then
      ("Transfer").data
    else ("Other").data

/-- The final assembly step of `parseTransactionLine` (server.js
624-637): a transaction is returned only when amount and description are
both truthy; type is income when the credit signal or the income-keyword
heuristic fires, expense otherwise. -/
def assemble (line : List Char) (date : Option (List Char)) (amt : Option ℚ)
    (isCredit : Bool) (desc : Option (List Char)) : Option Transaction :=
  if truthyQ amt && truthyS desc then
    some { date := date, description := desc, amount := amt,
           type := some (if isCredit || isIncomeDescription (desc.getD []) then
                           TType.income
                         else TType.expense),
           category := some (suggestCategory (desc.getD [])),
           raw_line := line }
  else none

/-- `parseTransactionLine` (server.js 560-638), threading the shared
regex `lastIndex` state: header/balance suppression, date extraction,
amount extraction, description extraction, assembly. -/
def parseTransactionLine (s : RState) (line : List Char) :
    RState × Option Transaction :=
  let hd := isHeaderLineSt s line
  if hd.2 then (hd.1, none)
  else if isBalanceLine line then (hd.1, none)
  else
    let date := extractDate line
    let amtRes := extractAmount hd.1 line
    let amt : Option ℚ := amtRes.map (fun t => t.1)
    let isCredit := (amtRes.map (fun t => t.2.2)).getD false
    let desc := extractDesc line date amt
    (hd.1, assemble line date amt isCredit desc)

/-- `text.split('\n').map(trim).filter(nonempty)` (server.js 544). -/
def segmentLines (text : List Char) : List (List Char) :=
  ((splitOnC '\n' text).map trimL).filter (fun l => !l.isEmpty)

/-- The line loop of `parseTransactionText` (server.js 547-554): each
line is parsed with the current regex state, and the non-null results are
collected in order. -/
def collectLines (s : RState) : List (List Char) → RState × List Transaction
  | [] => (s, [])
  | l :: ls =>
    let r := parseTransactionLine s l
    let rest := collectLines r.1 ls
    match r.2 with
    | some t => (rest.1, t :: rest.2)
    | none => rest

/-- `new Date(dateString).getTime()` for the canonical `YYYY-MM-DD`
strings this pipeline stores (measured in days; the comparator only uses
differences). A non-conforming string yields NaN, which the JS sort
comparator maps to 0 (elements compare as equal); that is modelled by the
constant key 0. -/
def dateKeyOf : Option (List Char) → Int
  | some ds =>
    (match splitOnC '-' ds with
     | [p0, p1, p2] =>
       if p0.length = 4 && p1.length = 2 && p2.length = 2 &&
           p0.all isDigitC && p1.all isDigitC && p2.all isDigitC then
         let m := natOfDigits p1
         let d := natOfDigits p2
         if 1 ≤ m && m ≤ 12 && 1 ≤ d && d ≤ 31 then
           daysFromCivil (natOfDigits p0 : Int) (m : Int) (d : Int)
         else 0
       else 0
     | _ => 0)
  | none => 0

/-- The date-only sort order used by `cleanupTransactions`. -/
def txLe (a b : Transaction) : Prop := dateKeyOf a.date ≤ dateKeyOf b.date

instance : DecidableRel txLe := fun _ _ => Int.decLe _ _

instance : IsTotal Transaction txLe := ⟨fun _ _ => Int.le_total _ _⟩

instance : IsTrans Transaction txLe := ⟨fun _ _ _ h1 h2 => Int.le_trans h1 h2⟩

def orDefaultS (o : Option (List Char)) (d : List Char) : Option (List Char) :=
  if truthyS o then o else some d

/-- The defaulting map of `cleanupTransactions`: `t.description ||
'Unknown Transaction'` and `t.category || 'Other'`. -/
def applyDefaults (t : Transaction) : Transaction :=
  { t with description := orDefaultS t.description ("Unknown Transaction").data,
           category := orDefaultS t.category ("Other").data }

/-- First filter of `cleanupTransactions`: `t.date && t.amount &&
t.description` (JS truthiness). -/
def validFields (t : Transaction) : Bool :=
  truthyS t.date && truthyQ t.amount && truthyS t.description

/-- Second filter of `cleanupTransactions`: `t.amount > 0`. -/
def amountPos (t : Transaction) : Bool :=
  match t.amount with
  | some a => decide (0 < a)
  | none => false

/-- `cleanupTransactions` (server.js 736-746). JS `Array.prototype.sort`
is stable, and with the date-only comparator the stable result is the
unique sorted stable permutation, so insertion sort models it exactly. -/
def cleanupTransactions (l : List Transaction) : List Transaction :=
  List.insertionSort txLe (((l.filter validFields).filter amountPos).map applyDefaults)

/-- `parseTransactionText` (server.js 543-558). -/
def parseTransactionText (s : RState) (text : List Char) :
    RState × List Transaction :=
  let r := collectLines s (segmentLines text)
  (r.1, cleanupTransactions r.2)

structure Summary where
  totalTransactions : Nat
  totalDebits : Nat
  totalCredits : Nat
  dateRange : Option (Option (List Char) × Option (List Char))
deriving DecidableEq, Repr

structure PdfResult where
  success : Bool
  transactions : List Transaction
  rawText : Option (List Char)
  error : Option (List Char)
  summary : Option Summary
deriving DecidableEq, Repr

def odLe (a b : Option (List Char)) : Prop := dateKeyOf a ≤ dateKeyOf b

instance : DecidableRel odLe := fun _ _ => Int.decLe _ _

/-- `getDateRange` (server.js 748-756): min and max of the stored dates
(for the canonical date strings of this pipeline, `toISOString` returns
the stored string back). -/
def getDateRange (ts : List Transaction) : Option (Option (List Char) × Option (List Char)) :=
  match ts with
  | [] => none
  | _ =>
    let ds := List.insertionSort odLe (ts.map (fun t => t.date))
    some ((ds.head?).getD none, (ds.getLast?).getD none)

/-- `processPDF` (server.js 516-541). Reading and decoding the document
are external effects; their outcome is the `Except` input (`error e`
models a throw from `fs.readFileSync`/`pdfParse`, caught by the
surrounding try/catch). -/
def processPDF (s : RState) (input : Except (List Char) (List Char)) :
    RState × PdfResult :=
  match input with
  | Except.error e =>
    (s, { success := false, transactions := [], rawText := none,
          error := some e, summary := none })
  | Except.ok text =>
    let r := parseTransactionText s text
    (r.1,
     { success := true, transactions := r.2, rawText := some text, error := none,
       summary := some
         { totalTransactions := r.2.length,
           totalDebits := (r.2.filter (fun t => decide (t.type = some TType.expense))).length,
           totalCredits := (r.2.filter (fun t => decide (t.type = some TType.income))).length,
           dateRange := getDateRange r.2 } })

/-- Concrete inputs used by the witness and counterexample theorems. -/
def c2text : List Char :=
  ("SUMMARY OF FEES AND CHARGES FOR PERIOD SHOWN $12.34" ++ "\n" ++
   "01/15/2024 01/16/2024 WALMART $45.67").data

def c3line : List Char := ("02/01/2024 PAYROLL DEPOSIT $2500.00 CR").data

def c4line : List Char := ("01/15/2024 WALMART PURCHASE $45.67").data

def c8token : List Char := ("$1,234,567.89").data

def c10line : List Char := ("45.67 CR").data

def w5tx : Transaction :=
  { date := some ("2024-01-15").data, description := some ("Coffee shop").data,
    amount := some 5, type := some TType.expense,
    category := some ("Other").data, raw_line := [] }

def w9text : List Char := ("01/15/2024 01/16/2024 WALMART $45.67").data

/- Batteries marks the arithmetic of `Rat` `@[irreducible]`; the concrete
evaluations below need it to unfold during elaboration. -/
attribute [local semireducible] Rat.add Rat.mul Rat.inv Rat.sub Rat.ofScientific

set_option maxHeartbeats 1600000

/-- `orDefaultS` keeps truthy values. -/
theorem truthyS_orDefaultS (o : Option (List Char)) (d : List Char)
    (hd : d.isEmpty = false) : truthyS (orDefaultS o d) = true := by
  unfold orDefaultS
  split
  · assumption
  · simp [truthyS, hd]

/-- Defaulting twice with the same nonempty default changes nothing. -/
theorem orDefaultS_idem (o : Option (List Char)) (d : List Char)
    (hd : d.isEmpty = false) : orDefaultS (orDefaultS o d) d = orDefaultS o d := by
  have h := truthyS_orDefaultS o d hd
  unfold orDefaultS at h ⊢
  simp [h]

/-- The defaulting map of `cleanupTransactions` is idempotent. -/
theorem applyDefaults_idem (u : Transaction) :
    applyDefaults (applyDefaults u) = applyDefaults u := by
  simp [applyDefaults, orDefaultS_idem]

theorem listMapSelf {α : Type} (f : α → α) :
    ∀ L : List α, (∀ t ∈ L, f t = t) → L.map f = L
  | [], _ => rfl
  | a :: L, h => by
    simp only [List.map]
    rw [h a (by simp), listMapSelf f L (fun t ht => h t (by simp [ht]))]

/-- Every member of `cleanupTransactions l` is the defaulted image of a
member of `l` that passed both filters. -/
theorem mem_cleanup {t : Transaction} {l : List Transaction}
    (h : t ∈ cleanupTransactions l) :
    ∃ u, u ∈ l ∧ validFields u = true ∧ amountPos u = true ∧ t = applyDefaults u := by
  unfold cleanupTransactions at h
  rw [List.mem_insertionSort] at h
  obtain ⟨u, hu, rfl⟩ := List.mem_map.1 h
  exact ⟨u, List.mem_of_mem_filter (List.mem_of_mem_filter hu),
    List.of_mem_filter (List.mem_of_mem_filter hu), List.of_mem_filter hu, rfl⟩

theorem sorted_cleanup (l : List Transaction) :
    List.Sorted txLe (cleanupTransactions l) :=
  List.sorted_insertionSort txLe _

/-- Members of `cleanupTransactions l` pass both filters and are fixed by
the defaulting map, so a second pass is the identity before sorting. -/
theorem cleanup_member_props {t : Transaction} {l : List Transaction}
    (h : t ∈ cleanupTransactions l) :
    validFields t = true ∧ amountPos t = true ∧ applyDefaults t = t := by
  obtain ⟨u, _, hv, hp, rfl⟩ := mem_cleanup h
  refine ⟨?_, hp, applyDefaults_idem u⟩
  unfold validFields at hv ⊢
  unfold applyDefaults
  simp only [Bool.and_eq_true] at hv
  simp only [Bool.and_eq_true]
  exact ⟨⟨hv.1.1, hv.1.2⟩, truthyS_orDefaultS _ _ (by decide)⟩

theorem cleanup_idem (l : List Transaction) :
    cleanupTransactions (cleanupTransactions l) = cleanupTransactions l := by
  have hv : (cleanupTransactions l).filter validFields = cleanupTransactions l :=
    List.filter_eq_self.2 (fun t ht => (cleanup_member_props ht).1)
  have hp : (cleanupTransactions l).filter amountPos = cleanupTransactions l :=
    List.filter_eq_self.2 (fun t ht => (cleanup_member_props ht).2.1)
  have hm : (cleanupTransactions l).map applyDefaults = cleanupTransactions l :=
    listMapSelf _ _ (fun t ht => (cleanup_member_props ht).2.2)
  conv_lhs => rw [cleanupTransactions]
  rw [hv, hp, hm]
  exact (sorted_cleanup l).insertionSort_eq

/-- Any transaction `assemble` returns carries a type that is exactly
income or expense. -/
theorem assemble_type {line : List Char} {date : Option (List Char)}
    {amt : Option ℚ} {isCredit : Bool} {desc : Option (List Char)}
    {t : Transaction} (h : assemble line date amt isCredit desc = some t) :
    t.type = some TType.income ∨ t.type = some TType.expense := by
  unfold assemble at h
  split at h
  · cases h
    cases hc : isCredit || isIncomeDescription (desc.getD []) <;> simp [hc]
  · cases h

/-- Any transaction `parseTransactionLine` returns carries a type that is
exactly income or expense. -/
theorem parseLine_type {s : RState} {line : List Char} {s1 : RState}
    {t : Transaction} (h : parseTransactionLine s line = (s1, some t)) :
    t.type = some TType.income ∨ t.type = some TType.expense := by
  unfold parseTransactionLine at h
  dsimp only at h
  split at h
  · simp at h
  · split at h
    · simp at h
    · rw [Prod.mk.injEq] at h
      exact assemble_type h.2

/-- Every transaction collected by the line loop was returned by
`parseTransactionLine` from some state. -/
theorem collect_mem :
    ∀ (ls : List (List Char)) (s : RState) (t : Transaction),
      t ∈ (collectLines s ls).2 →
      ∃ s0 s1 line, parseTransactionLine s0 line = (s1, some t) := by
  intro ls
  induction ls with
  | nil => intro s t h; simp [collectLines] at h
  | cons l ls ih =>
    intro s t h
    unfold collectLines at h
    dsimp only at h
    rcases hr : (parseTransactionLine s l).2 with _ | t0
    · rw [hr] at h
      exact ih _ t h
    · rw [hr] at h
      simp only [List.mem_cons] at h
      rcases h with h | h
      · subst h
        exact ⟨s, (parseTransactionLine s l).1, l, by rw [← hr]⟩
      · exact ih _ t h

/-- On a list whose members all have type income or expense, the expense
count plus the income count is the length. -/
theorem filter_type_split :
    ∀ L : List Transaction,
      (∀ t ∈ L, t.type = some TType.income ∨ t.type = some TType.expense) →
      (L.filter (fun t => decide (t.type = some TType.expense))).length +
        (L.filter (fun t => decide (t.type = some TType.income))).length = L.length := by
  intro L h
  induction L with
  | nil => rfl
  | cons a L ih =>
    have hr := ih (fun t ht => h t (by simp [ht]))
    rcases h a (by simp) with ha | ha <;>
      simp [List.filter_cons, ha] <;> omega

/-- C1: the claim says a raw date token with out-of-range month or day
(e.g. "13/45/2024") makes `normalizeDate` return null and the candidate
be discarded. The code instead rolls the components over — JS
`new Date(2024, 12, 45)` is 2025-02-14 — and returns a date string, even
though the `isNaN` guard was clearly meant to reject such tokens; this
theorem evaluates the normalizer at the failing input. -/
theorem C1_normalizeDate_rolls_over :
    normalizeDate ("13/45/2024").data = some (("2025-02-14").data) := by decide

/-- C2: the claim says per-line processing is stateless and
`parseTransactionText` deterministic. `isHeaderLine` calls `test` on the
shared g-flagged amount patterns, whose persistent `lastIndex` survives
across lines and across calls; on this two-line input the first run
returns no transactions while the immediately following second run on
the same text returns one. -/
theorem C2_pipeline_is_stateful :
    (parseTransactionText initState c2text).2 ≠
      (parseTransactionText (parseTransactionText initState c2text).1 c2text).2 := by
  decide

/-- C3 counterexample: the claim says the line
"02/01/2024 PAYROLL DEPOSIT $2500.00 CR" yields exactly one transaction
(income, category "Salary", amount 2500); the pipeline in fact yields no
transaction at all from it. -/
theorem C3_counterexample :
    (parseTransactionText initState c3line).2 = [] := by decide

/-- C3 amended: on that line `parseTransactionLine` builds one candidate
with direction income and amount 2500, but its category is "Income" (the
DEPOSIT mapping precedes PAYROLL in the table) and its date is null
(`match` under the g flag returns matched substrings, so `dateMatch[1]`
is the absent second match, not the capture group), and the validated
pipeline output is therefore empty. -/
theorem C3_amended :
    (parseTransactionLine initState c3line).2.map Transaction.type =
        some (some TType.income) ∧
      (parseTransactionLine initState c3line).2.map Transaction.amount =
        some (some (2500 : ℚ)) ∧
      (parseTransactionLine initState c3line).2.map Transaction.category =
        some (some (("Income").data)) ∧
      (parseTransactionLine initState c3line).2.map Transaction.date = some none ∧
      (parseTransactionText initState c3line).2 = [] := by
  refine ⟨by decide, by decide, by decide, by decide, by decide⟩

/-- C4 counterexample: the claim says the line
"01/15/2024 WALMART PURCHASE $45.67" yields exactly one transaction with
date "2024-01-15" and description beginning "Walmart purchase"; the
pipeline in fact yields no transaction from it. -/
theorem C4_counterexample :
    (parseTransactionText initState c4line).2 = [] := by decide

/-- C4 amended: on that line `parseTransactionLine` builds one candidate
with category "Shopping", direction expense and amount 45.67, but its
date is null (the capture group is lost under the g-flag `match`, so
`normalizeDate` receives `undefined`) and its cleaned description is
"/15/2024 walmart purchase $" — the date removal uses the normalized
(null) date, not the raw token, and only the leading digit run is
stripped — so the validated pipeline output is empty. -/
theorem C4_amended :
    (parseTransactionLine initState c4line).2.map Transaction.category =
        some (some (("Shopping").data)) ∧
      (parseTransactionLine initState c4line).2.map Transaction.type =
        some (some TType.expense) ∧
      (parseTransactionLine initState c4line).2.map Transaction.amount =
        some (some (4567 / 100 : ℚ)) ∧
      (parseTransactionLine initState c4line).2.map Transaction.date = some none ∧
      (parseTransactionLine initState c4line).2.map Transaction.description =
        some (some (("/15/2024 walmart purchase $").data)) ∧
      (parseTransactionText initState c4line).2 = [] := by
  refine ⟨by decide, by decide, by decide, by decide, by decide, by decide⟩

/-- C7: whenever obtaining or decoding the document text fails (the
try/catch of `processPDF` catches a throw from the read or parse step),
the result carries success = false, the error message, and an empty
transaction sequence. -/
theorem C7_failure_result (s : RState) (e : List Char) :
    (processPDF s (Except.error e)).2.success = false ∧
      (processPDF s (Except.error e)).2.error = some e ∧
      (processPDF s (Except.error e)).2.transactions = [] :=
  ⟨rfl, rfl, rfl⟩

/-- C8 counterexample: the claim says every amount token with thousands
separators parses to its separator-stripped numeral; the group regex
admits at most one comma, so "$1,234,567.89" is captured as "1,234" and
parses to 1234, not 1234567.89. -/
theorem C8_counterexample :
    (extractAmount initState c8token).map (fun t => t.1) = some (1234 : ℚ) ∧
      (1234 : ℚ) ≠ (123456789 / 100 : ℚ) := by
  refine ⟨by decide, by decide⟩

/-- C5: every transaction in the validated sequence has a strictly
positive amount, and validation is idempotent — `cleanupTransactions`
applied to its own output returns it unchanged (the filters pass
everything, the defaulting map is pointwise idempotent, and the stable
sort of a sorted list is the identity). -/
theorem C5_cleanup_positive_idempotent (l : List Transaction) :
    (∀ t, t ∈ cleanupTransactions l → ∃ a, t.amount = some a ∧ 0 < a) ∧
      cleanupTransactions (cleanupTransactions l) = cleanupTransactions l := by
  constructor
  · intro t ht
    obtain ⟨u, _, _, hp, rfl⟩ := mem_cleanup ht
    unfold amountPos at hp
    rcases ha : u.amount with _ | a
    · rw [ha] at hp; cases hp
    · rw [ha] at hp
      simp only [decide_eq_true_eq] at hp
      exact ⟨a, ha, hp⟩
  · exact cleanup_idem l

/-- C5 witness: the two parts of C5 instantiated at a concrete singleton
list whose member survives validation. -/
theorem C5_witness :
    (∃ a, w5tx.amount = some a ∧ 0 < a) ∧
      cleanupTransactions (cleanupTransactions [w5tx]) = cleanupTransactions [w5tx] :=
  ⟨(C5_cleanup_positive_idempotent [w5tx]).1 w5tx (by decide),
   (C5_cleanup_positive_idempotent [w5tx]).2⟩

/-- C6: for every input text (and every regex state), the transaction
sequence returned by the pipeline is sorted non-decreasingly by the date
field (the date-only comparator `txLe`); nothing is claimed about the
order of equal dates. -/
theorem C6_output_sorted_by_date (s : RState) (text : List Char) :
    List.Sorted txLe (parseTransactionText s text).2 :=
  sorted_cleanup _

/-- C9: every transaction of a successful `processPDF` result has type
exactly income or expense, and consequently the summary's totalDebits
plus totalCredits equals totalTransactions. -/
theorem C9_type_total_and_counts (s : RState) (text : List Char) :
    (∀ t ∈ (processPDF s (Except.ok text)).2.transactions,
        t.type = some TType.income ∨ t.type = some TType.expense) ∧
      ∀ sm, (processPDF s (Except.ok text)).2.summary = some sm →
        sm.totalDebits + sm.totalCredits = sm.totalTransactions := by
  have key : ∀ t ∈ (parseTransactionText s text).2,
      t.type = some TType.income ∨ t.type = some TType.expense := by
    intro t ht
    have ht2 : t ∈ cleanupTransactions (collectLines s (segmentLines text)).2 := ht
    obtain ⟨u, hu, _, _, rfl⟩ := mem_cleanup ht2
    obtain ⟨s0, s1, line, hpl⟩ := collect_mem _ _ _ hu
    simpa [applyDefaults] using parseLine_type hpl
  constructor
  · intro t ht
    exact key t ht
  · intro sm hsm
    unfold processPDF at hsm
    dsimp only at hsm
    cases hsm
    dsimp only
    exact filter_type_split _ key

/-- C9 witness: a successful run on a concrete text yielding one
transaction, with the type totality and the count identity from C9. -/
theorem C9_witness :
    (processPDF initState (Except.ok w9text)).2.transactions.length = 1 ∧
      (∀ t ∈ (processPDF initState (Except.ok w9text)).2.transactions,
          t.type = some TType.income ∨ t.type = some TType.expense) ∧
      ∀ sm, (processPDF initState (Except.ok w9text)).2.summary = some sm →
        sm.totalDebits + sm.totalCredits = sm.totalTransactions :=
  ⟨by decide, (C9_type_total_and_counts initState w9text).1,
   (C9_type_total_and_counts initState w9text).2⟩

/-- C10: when the string form of the parsed amount occurs in the line
only at the very start (`lastIndexOf` is 0), the description guard
`amountIndex > 0` fails, the description is never computed, and
`parseTransactionLine` returns no transaction — even if a date and a
positive amount were recovered. -/
theorem C10_amount_at_line_start_yields_none (s : RState) (line : List Char) (a : ℚ)
    (hamt : (extractAmount (isHeaderLineSt s line).1 line).map (fun t => t.1) = some a)
    (hidx : lastIndexOfL line (numToStringL a) = 0) :
    (parseTransactionLine s line).2 = none := by
  unfold parseTransactionLine
  dsimp only
  split
  · rfl
  · split
    · rfl
    · dsimp only
      rw [hamt]
      unfold extractDesc
      by_cases h0 : a = 0
      · subst h0
        simp [truthyQ, assemble]
      · have ht : truthyQ (some a) = true := by simp [truthyQ, h0]
        rw [ht]
        simp [hidx, assemble, truthyS]

/-- C10 witness: the line "45.67 CR" parses an amount of 45.67 via the
CR pattern whose string form sits at index 0, and the line yields no
transaction. -/
theorem C10_witness :
    (extractAmount (isHeaderLineSt initState c10line).1 c10line).map (fun t => t.1) =
        some (4567 / 100 : ℚ) ∧
      lastIndexOfL c10line (numToStringL (4567 / 100 : ℚ)) = 0 ∧
      (parseTransactionLine initState c10line).2 = none :=
  ⟨by decide, by decide,
   C10_amount_at_line_start_yields_none initState c10line (4567 / 100) (by decide) (by decide)⟩

/-- A greedy digit run stops exactly at the first non-digit. -/
theorem spanDigits_append_cons (a : List Char) (x : Char) (r : List Char)
    (ha : a.all isDigitC = true) (hx : isDigitC x = false) :
    spanDigits (a ++ x :: r) = (a, x :: r) := by
  induction a with
  | nil => simp [spanDigits, hx]
  | cons c a ih =>
    simp only [List.all_cons, Bool.and_eq_true] at ha
    simp [spanDigits, ha.1, ih ha.2]

/-- A list of digits is consumed whole by the greedy digit run. -/
theorem spanDigits_all (a : List Char) (ha : a.all isDigitC = true) :
    spanDigits a = (a, []) := by
  induction a with
  | nil => rfl
  | cons c a ih =>
    simp only [List.all_cons, Bool.and_eq_true] at ha
    simp [spanDigits, ha.1, ih ha.2]

/-- The numeral group of the amount patterns consumes a whole token of
the shape digits-comma-digits-dot-digits. -/
theorem numGroup_one_sep (a b c : List Char) (hna : a ≠ [])
    (ha : a.all isDigitC = true) (hb : b.all isDigitC = true)
    (hc : c.all isDigitC = true) :
    numGroup (a ++ ',' :: b ++ '.' :: c) = some (a ++ ',' :: b ++ '.' :: c, []) := by
  simp only [List.append_assoc, List.cons_append]
  unfold numGroup
  rw [spanDigits_append_cons a ',' (b ++ '.' :: c) ha (by decide)]
  cases a with
  | nil => exact absurd rfl hna
  | cons x a1 =>
    dsimp only
    simp [spanDigits_append_cons b '.' c hb (by decide), spanDigits_all c hc]

theorem findFromAux_none (m : List Char → Option (Nat × List Char))
    (cs : List Char) (hnil : m [] = none) :
    ∀ (fuel j : Nat), cs.length ≤ j → findFromAux m cs j fuel = none := by
  intro fuel
  induction fuel with
  | zero => intro j _; rfl
  | succ f ih =>
    intro j hj
    unfold findFromAux
    rw [List.drop_eq_nil_of_le hj, hnil]
    exact ih (j + 1) (Nat.le_succ_of_le hj)

theorem findFrom_zero (m : List Char → Option (Nat × List Char)) (cs : List Char)
    (len : Nat) (g : List Char) (h : m cs = some (len, g)) :
    findFrom m cs 0 = some (0, len, g) := by
  unfold findFrom
  rw [Nat.sub_zero]
  unfold findFromAux
  rw [List.drop_zero, h]

theorem allMatchesAux_stop (m : List Char → Option (Nat × List Char))
    (cs : List Char) (hnil : m [] = none) (fuel j : Nat) (hj : cs.length ≤ j) :
    allMatchesAux m cs j fuel = [] := by
  cases fuel with
  | zero => rfl
  | succ f =>
    unfold allMatchesAux findFrom
    rw [findFromAux_none m cs hnil _ j hj]

/-- When the whole string is a single match of `m`, `matchAll` from
`lastIndex` 0 returns exactly that match's group. -/
theorem allMatchesFrom_single (m : List Char → Option (Nat × List Char))
    (cs g : List Char) (h : m cs = some (cs.length, g)) (hnil : m [] = none) :
    allMatchesFrom m cs 0 = [g] := by
  unfold allMatchesFrom
  unfold allMatchesAux
  rw [findFrom_zero m cs _ g h]
  dsimp only
  rw [Nat.zero_add, allMatchesAux_stop m cs hnil _ cs.length (Nat.le_refl _)]

/-- A whole-token numeral group behind the currency sign is one match of
the currency pattern spanning the entire string. -/
theorem matchAmt0_whole (w : List Char) (hng : numGroup w = some (w, [])) :
    matchAmt0 ('$' :: w) = some (('$' :: w).length, w) := by
  simp [matchAmt0, hng, Nat.add_comm]

theorem parseFloatQ_decimal (u c : List Char) (hu : u.all isDigitC = true)
    (hc : c.all isDigitC = true) :
    parseFloatQ (u ++ '.' :: c) =
      (natOfDigits u : ℚ) + (natOfDigits c : ℚ) / (10 : ℚ) ^ c.length := by
  unfold parseFloatQ
  rw [spanDigits_append_cons u '.' c hu (by decide)]
  dsimp only
  rw [spanDigits_all c hc]
  simp

theorem filter_ne_comma_digits (l : List Char) (hl : l.all isDigitC = true) :
    l.filter (fun c => c != ',') = l := by
  induction l with
  | nil => rfl
  | cons c l ih =>
    simp only [List.all_cons, Bool.and_eq_true] at hl
    have hcc : (c != ',') = true := by
      by_cases hc : c = ','
      · subst hc; exact absurd hl.1 (by decide)
      · simp [hc]
    simp [List.filter_cons, hcc, ih hl.2]

/-- C8 amended: the currency-pattern group admits at most one thousands
separator, so for every token of the shape `$A,B.C` (one separator, a
nonempty leading digit run), the parsed amount equals the
separator-stripped numeral read as a decimal; tokens with further
separators are truncated at the capture boundary instead (see the
counterexample, where "$1,234,567.89" parses to 1234). -/
theorem C8_single_separator_parses_stripped (a b c : List Char) (hna : a ≠ [])
    (ha : a.all isDigitC = true) (hb : b.all isDigitC = true)
    (hc : c.all isDigitC = true) :
    (extractAmount initState ('$' :: (a ++ ',' :: b ++ '.' :: c))).map (fun t => t.1) =
      some ((natOfDigits (a ++ b) : ℚ) + (natOfDigits c : ℚ) / (10 : ℚ) ^ c.length) := by
  have hng := numGroup_one_sep a b c hna ha hb hc
  have hm := matchAmt0_whole _ hng
  have hall := allMatchesFrom_single matchAmt0 ('$' :: (a ++ ',' :: b ++ '.' :: c))
    (a ++ ',' :: b ++ '.' :: c) hm rfl
  unfold extractAmount
  dsimp only [initState]
  rw [hall]
  simp only [List.isEmpty_cons, Bool.not_false, if_true]
  unfold amtOf
  simp only [List.getLast?_singleton]
  rw [show ((a ++ ',' :: b ++ '.' :: c) : List Char).filter (fun c => c != ',') =
        (a ++ b) ++ '.' :: c by
      simp [List.filter_append, List.filter_cons, filter_ne_comma_digits a ha,
        filter_ne_comma_digits b hb, filter_ne_comma_digits c hc]]
  rw [parseFloatQ_decimal (a ++ b) c (by simp [List.all_append, ha, hb]) hc]
  rfl

/-- C8 witness: the amended statement instantiated at the token
"$1,234.56", whose parsed amount is 1234.56. -/
theorem C8_witness :
    (extractAmount initState
        ('$' :: ((['1'] : List Char) ++ ',' :: ['2', '3', '4'] ++ '.' :: ['5', '6']))).map
        (fun t => t.1) =
      some ((natOfDigits ((['1'] : List Char) ++ ['2', '3', '4']) : ℚ) +
        (natOfDigits (['5', '6'] : List Char) : ℚ) /
          (10 : ℚ) ^ (['5', '6'] : List Char).length) :=
  C8_single_separator_parses_stripped ['1'] ['2', '3', '4'] ['5', '6']
    (by decide) (by decide) (by decide) (by decide)
